import Mathlib

/-!
# Verification of the CTD ("Connect The Dots") pipeline

Shallow embedding of the main script `CTD.py` (the "Encoding Process",
lines 88-232).  The script's library collaborators
(`Python.graph.single_node_get_node_ranks`, `Python.mle.get_pt_bs_by_k`,
`Python.mle.get_encoding_length`, `scipy.stats.norm.sf`) are not part of
this repository's source tree; they are taken as parameters of the
pipeline, or modelled from the specification where a claim needs their
observable shape (such definitions carry a doc comment starting with
`Modelled from the spec:`).

Numeric conventions: Python floats appearing in comparisons and table
values are embedded as rationals (ℚ); the real-valued significance
quantities `2.0 ** (-d)` are stated over ℝ.  `np.log2` over a node count
is embedded with an explicit carrier distinguishing the degenerate
`np.log2(0) = -inf` case.
-/

namespace CTD

/-- One row of the encoding-result table `res` returned by
`mle.get_encoding_length` (only the columns the main script reads:
`d.score`, `optimalBS`, `subsetSize`). -/
structure EncRow where
  dscore : ℚ
  optimalBS : String
  subsetSize : ℕ
  deriving DecidableEq, Repr

/-- `np.where(col == col.max())` followed by `.iloc[...]` on a table kept
as (original index, row) pairs: keep exactly the entries whose key equals
the column maximum, in table order. -/
def keepMaxBy {α β : Type} [LinearOrder β] (f : α → β) (l : List α) : List α :=
  l.filter (fun p => decide ((l.map f).maximum = (f p : WithBot β)))

/-- Winner selection of `CTD.py` lines 173-186: restrict to rows whose
`d.score` equals the table maximum, then to rows whose `optimalBS` string
length is maximal, then to rows whose `subsetSize` is maximal, and return
the original index of the first remaining row
(`ind_F = ind_F.index.values[0]`).  Returns `none` for an empty table
(where the script would raise an `IndexError`). -/
def selectWinnerIdx (res : List EncRow) : Option ℕ :=
  ((keepMaxBy (fun p => p.2.subsetSize)
    (keepMaxBy (fun p => p.2.optimalBS.length)
      (keepMaxBy (fun p => p.2.dscore) res.enum))).head?).map Prod.fst

example :
    selectWinnerIdx [⟨1, "10110", 5⟩, ⟨1, "1011010", 7⟩] = some 1 := by decide

example :
    selectWinnerIdx [⟨1, "1011010", 7⟩, ⟨1, "10110", 5⟩] = some 0 := by decide

example :
    selectWinnerIdx [⟨2, "10110", 5⟩, ⟨1, "1011010", 7⟩] = some 0 := by decide

example : selectWinnerIdx [] = none := by decide

/-- `p_value_F = 2.0 ** (-1 * F_info['d.score'])` (`CTD.py` line 193),
over ℝ with real exponentiation. -/
noncomputable def p_value_F (d : ℚ) : ℝ := (2 : ℝ) ^ (-(d : ℝ))

/-- `kmcm_probability = 2.0 ** (-1 * len(F_info['optimalBS']))`
(`CTD.py` line 206); the exponent is a (negated) natural number, so the
value is an exact dyadic rational. -/
def kmcm_probability (optimalBS : String) : ℚ :=
  (2 : ℚ) ^ (-(optimalBS.length : ℤ))

/-- `keep_nodes` (`CTD.py` lines 198-200): membership bits retained when
building `F`; `[0, 1]` when `--include_not_in_s` is set, else `[1]`. -/
def keep_nodes (include_not_in_s : Bool) : List ℕ :=
  if include_not_in_s then [0, 1] else [1]

/-- `Fs = [d[0] for d in pt_bs_by_k[ind_F] if d[1] in keep_nodes]`
(`CTD.py` line 202): the node names of the winning bitstring entry whose
membership bit is in `keep_nodes`. -/
def Fs_of (entry : List (String × ℕ)) (include_not_in_s : Bool) : List String :=
  (entry.filter (fun d => (keep_nodes include_not_in_s).contains d.2)).map Prod.fst

/-! ## Seed selection (`CTD.py` lines 96-112) -/

/-- The experimental dataframe as the seed selector sees it: row index
(`nodes`), patient columns (`patients`), and the measured value of a node
in a patient column. -/
structure ExpFrame where
  nodes : List String
  patients : List String
  value : String → String → ℚ

/-- Insert `x` into a list already sorted descending by `key`. -/
def insertDescBy (key : String → ℚ) (x : String) : List String → List String
  | [] => [x]
  | y :: ys => if key y ≤ key x then x :: y :: ys else y :: insertDescBy key x ys

/-- `df.sort_values(by=pt, ascending=False)` on the row index: the node
list sorted descending by `key` (insertion sort). -/
def sortDescBy (key : String → ℚ) : List String → List String
  | [] => []
  | x :: xs => insertDescBy key x (sortDescBy key xs)

/-- The concatenated per-patient top-`kmx` lists `S_set`
(`CTD.py` lines 97-100). -/
def S_set_of (df : ExpFrame) (kmx : ℕ) : List String :=
  df.patients.foldl
    (fun acc pt => acc ++ (sortDescBy (fun n => df.value n pt) df.nodes).take kmx) []

/-- Key iteration order of a Python `Counter` built from a list: each
element once, at its first occurrence. -/
def counterKeys (l : List String) : List String :=
  l.foldl (fun acc x => if x ∈ acc then acc else acc ++ [x]) []

/-- Mode-1 seed selection (`CTD.py` lines 96-107): aggregate per-patient
top-`kmx` nodes, keep those occurring at least
`len(target_patients) * present_in_perc_for_s` times. -/
def mode1Seeds (df : ExpFrame) (kmx : ℕ) (perc : ℚ) : List String :=
  let S_set := S_set_of df kmx
  (counterKeys S_set).filter
    (fun node => decide ((df.patients.length : ℚ) * perc ≤ (S_set.count node : ℚ)))

/-- Python's `str.split(',')` on the character list. -/
def pySplitComma (l : List Char) : List (List Char) :=
  match l with
  | [] => [[]]
  | c :: cs =>
    match pySplitComma cs with
    | [] => if c = ',' then [[], []] else [[c]]
    | w :: ws => if c = ',' then [] :: w :: ws else (c :: w) :: ws

/-- Python's `str.strip()`: remove leading and trailing whitespace. -/
def pyStrip (l : List Char) : List Char :=
  ((l.dropWhile Char.isWhitespace).reverse.dropWhile Char.isWhitespace).reverse

/-- The table behind a `--s_module` path, as parsed rows of cell strings
(CSV parsing itself is an external collaborator); `none` when
`os.path.exists` is false. -/
def SModuleFS : Type := String → Option (List (List String))

/-- Seed selection (`CTD.py` lines 96-112), three modes in priority
order: empty/absent spec → mode 1; spec naming an existing table → the
table's last column (`s_module_df.iloc[:, -1]`, rows are non-empty CSV
records); otherwise → the spec split on commas with whitespace stripped. -/
def selectSeeds (s_module : String) (fs : SModuleFS)
    (df : ExpFrame) (kmx : ℕ) (perc : ℚ) : List String :=
  if s_module = "" then mode1Seeds df kmx perc
  else
    match fs s_module with
    | some table => table.map (fun row => row.getLastD "")
    | none => (pySplitComma s_module.data).map (fun w => String.mk (pyStrip w))

example : selectSeeds "a, a" (fun _ => none) ⟨[], [], fun _ _ => 0⟩ 15 (1/2)
    = ["a", "a"] := by decide

/-! ## Node ranking (`CTD.py` lines 122-147) -/

/-- A rank list: ordered `(node, membershipBit)` pairs. -/
abbrev RankList : Type := List (String × ℕ)

/-- The `ranks` dictionary: node identifier → rank list, as an
insertion-ordered association list (Python `dict`). -/
abbrev RanksMap : Type := List (String × RankList)

/-- Python `dict` assignment `m[k] = v`: overwrite in place if the key
exists, else append. -/
def dictInsert (m : RanksMap) (k : String) (v : RankList) : RanksMap :=
  if m.any (fun p => p.1 = k) then
    m.map (fun p => if p.1 = k then (k, v) else p)
  else m ++ [(k, v)]

/-- `np.log2(len(G))` (`CTD.py` lines 136 and 141), the miss budget
passed to the ranker.  `np.log2(0)` evaluates to `-inf` with only a
`RuntimeWarning` (no exception); positive counts give the real base-2
logarithm, carried symbolically. -/
inductive NumMisses where
  | negInf : NumMisses
  | log2Val (n : ℕ) : NumMisses
  deriving DecidableEq, Repr

/-- `np.log2` applied to a node count. -/
def np_log2 (n : ℕ) : NumMisses :=
  if n = 0 then .negInf else .log2Val n

/-- The extended-real value denoted by a `NumMisses`: `-inf` is `⊥`,
never the embedding of a real number. -/
noncomputable def NumMisses.toEReal : NumMisses → EReal
  | .negInf => (⊥ : EReal)
  | .log2Val n => ((Real.logb 2 n : ℝ) : EReal)

/-- The biased walk `Python.graph.single_node_get_node_ranks` specialised
to a run's fixed `G`, `p1`, `threshold_diff`, `adj_mat` and `S` (the
script fixes them by keyword / `functools.partial`), still taking the
miss budget `num_misses` and the start node. -/
def Ranker : Type := NumMisses → String → RankList

/-- Modelled from the spec: `Python.graph.single_node_get_node_ranks` is
not in this source tree; §4.2 states its output is "the rank list for n,
paired with n itself (so results can be reassembled when computed out of
order by parallel workers)".  The walk itself is the abstract `ranker`;
only the echo structure is modelled. -/
def single_node_get_node_ranks (ranker : Ranker) (num_misses : NumMisses)
    (n : String) : RankList × String :=
  (ranker num_misses n, n)

/-- Sequential path (`CTD.py` lines 133-137): plain loop filling `ranks`
when `num_processes == 1`. -/
def seqRanks (ranker : Ranker) (num_misses : NumMisses) (S : List String) : RanksMap :=
  S.foldl
    (fun m node => dictInsert m node (single_node_get_node_ranks ranker num_misses node).1)
    []

/-- Pool path (`CTD.py` lines 139-147): `pool.map` over `S`, then
reassembly `ranks[tup[1]] = tup[0]`. -/
def poolRanks (ranker : Ranker) (num_misses : NumMisses) (S : List String) : RanksMap :=
  ((S.map (single_node_get_node_ranks ranker num_misses)).foldl
    (fun m tup => dictInsert m tup.2 tup.1) [])

/-- `ranks` as the script obtains it (`CTD.py` lines 126-147): the loaded
cache when `--ranks` names an existing file, else the computed map via
the sequential or pool path. -/
def ranksOf (cache : Option RanksMap) (num_processes : ℕ) (ranker : Ranker)
    (num_misses : NumMisses) (S : List String) : RanksMap :=
  match cache with
  | some c => c
  | none =>
    if num_processes = 1 then seqRanks ranker num_misses S
    else poolRanks ranker num_misses S

/-! ## Bitstrings and p-value matrix (`CTD.py` lines 149-172) -/

/-- Modelled from the spec: `Python.mle.get_pt_bs_by_k` is not in this
source tree; §4.3 and §3 state that each seed's rank list yields one
bitstring per k = 1…len(rankList) (the length-k initial segment of the
rank list's `(node, membershipBit)` pairs), and the result table carries
"one row per (seed,k) combination", indexed compatibly with
`pt_bs_by_k[ind_F]`. -/
def get_pt_bs_by_k (S : List String) (ranks : RanksMap) : List (List (String × ℕ)) :=
  S.flatMap (fun s =>
    (List.range ((ranks.lookup s).getD []).length).map
      (fun k => ((ranks.lookup s).getD []).take (k + 1)))

/-- The p-value matrix passed to the scorer: either a labelled table
(rows, columns, values) or `np.zeros((r, c))`. -/
inductive PMatrix where
  | zeros (r c : ℕ) : PMatrix
  | table (rows cols : List String) (vals : String → String → ℚ) : PMatrix

/-- `.T` — transpose of the p-value matrix. -/
def PMatrix.T : PMatrix → PMatrix
  | .zeros r c => .zeros c r
  | .table rows cols vals => .table cols rows (fun a b => vals b a)

/-- `data_mx_pvals` (`CTD.py` lines 157-163): with an experimental
dataset, `experimental_df[target_patients].apply(lambda x: 2*norm.sf(abs(x)))`
(rows = nodes, columns = target patients; `norm.sf` is scipy's standard
normal survival function, abstract here); otherwise `np.zeros((1, 1))`. -/
def data_mx_pvals (norm_sf : ℚ → ℚ) : Option ExpFrame → PMatrix
  | some df => .table df.nodes df.patients (fun n pt => 2 * norm_sf |df.value n pt|)
  | none => .zeros 1 1

/-- Python-level errors the script can hit after seed validation. -/
inductive CTDErr where
  | seedNotInGraph (node : String) : CTDErr
  | columnsIndexError : CTDErr
  | selectionIndexError : CTDErr
  | bitstringIndexError : CTDErr
  deriving DecidableEq, Repr

/-- `pt_id` (`CTD.py` lines 166-169): `data_mx_pvals.columns[0]` inside
`try/except AttributeError`.  A bare ndarray (`zeros`) has no `.columns`
→ `AttributeError` → `None`; a table with no columns raises an uncaught
`IndexError`. -/
def pt_id_of : PMatrix → Except CTDErr (Option String)
  | .zeros _ _ => .ok none
  | .table _ cols _ =>
    match cols with
    | [] => .error .columnsIndexError
    | c :: _ => .ok (some c)

/-- `Python.mle.get_encoding_length` specialised to nothing: the table of
encoding rows, a function of the bitstring family, the (transposed)
p-value matrix, and `pt_id`.  Not in this source tree, so abstract. -/
def Scorer : Type := List (List (String × ℕ)) → PMatrix → Option String → List EncRow

/-! ## The pipeline (`CTD.py` lines 117-216) -/

/-- The fields of `out_dict` (`CTD.py` lines 209-216) that the claims
track, together with the `ranks` value the script dumps alongside it
(`CTD.py` lines 226-232); `p_value`, `kmcm_probability` and
`optimal_bitstring` are derived from `winner` (= `F_info`) below. -/
structure CTDOut where
  S_perturbed_nodes : List String
  F_most_connected_nodes : List String
  winner : EncRow
  ranks_out : RanksMap
  number_of_nodes_in_G : ℕ
  deriving DecidableEq, Repr

/-- `out_dict["p_value"]` (`CTD.py` lines 193 and 212). -/
noncomputable def CTDOut.p_value (o : CTDOut) : ℝ := p_value_F o.winner.dscore

/-- `out_dict["kmcm_probability"]` (`CTD.py` lines 206 and 213). -/
def CTDOut.kmcm (o : CTDOut) : ℚ := kmcm_probability o.winner.optimalBS

/-- `out_dict["optimal_bitstring"]` (`CTD.py` lines 207 and 214). -/
def CTDOut.optimal_bitstring (o : CTDOut) : String := o.winner.optimalBS

/-- The Encoding Process of `CTD.py` from seed validation (lines 117-120)
to `out_dict` (lines 209-216): validate seeds against `G`'s key set,
obtain `ranks` (cache, sequential loop, or pool), build `pt_bs_by_k`,
form the p-value matrix and `pt_id`, score, select the winner by the
tie-break chain, and assemble the outputs.  Errors model the script's
fatal exits/uncaught exceptions at the corresponding lines; an `.error`
result writes no output. -/
def ctdRun (Gkeys : List String) (S : List String) (cache : Option RanksMap)
    (num_processes : ℕ) (ranker : Ranker) (scorer : Scorer)
    (experimental : Option ExpFrame) (norm_sf : ℚ → ℚ)
    (include_not_in_s : Bool) : Except CTDErr CTDOut :=
  match S.find? (fun n => !(Gkeys.contains n)) with
  | some n => .error (.seedNotInGraph n)
  | none =>
    let ranks := ranksOf cache num_processes ranker (np_log2 Gkeys.length) S
    let pt_bs_by_k := get_pt_bs_by_k S ranks
    let pvals := data_mx_pvals norm_sf experimental
    match pt_id_of pvals with
    | .error e => .error e
    | .ok pt_id =>
      let res := scorer pt_bs_by_k pvals.T pt_id
      match selectWinnerIdx res with
      | none => .error .selectionIndexError
      | some ind_F =>
        match res[ind_F]?, pt_bs_by_k[ind_F]? with
        | some F_info, some entry =>
          .ok { S_perturbed_nodes := S
                F_most_connected_nodes := Fs_of entry include_not_in_s
                winner := F_info
                ranks_out := ranks
                number_of_nodes_in_G := Gkeys.length }
        | _, _ => .error .bitstringIndexError

/-! ## Helper lemmas -/

theorem mem_keepMaxBy {α β : Type} [LinearOrder β] {f : α → β} {l : List α} {p : α} :
    p ∈ keepMaxBy f l ↔ p ∈ l ∧ ∀ q ∈ l, f q ≤ f p := by
  simp only [keepMaxBy, List.mem_filter, decide_eq_true_eq]
  constructor
  · rintro ⟨hp, hm⟩
    exact ⟨hp, fun q hq => List.le_maximum_of_mem (List.mem_map_of_mem f hq) hm⟩
  · rintro ⟨hp, hb⟩
    refine ⟨hp, List.maximum_eq_coe_iff.mpr ⟨List.mem_map_of_mem f hp, ?_⟩⟩
    rintro b hb'
    rcases List.mem_map.mp hb' with ⟨q, hq, rfl⟩
    exact hb q hq

theorem keepMaxBy_ne_nil {α β : Type} [LinearOrder β] {f : α → β} {l : List α}
    (h : l ≠ []) : keepMaxBy f l ≠ [] := by
  have hmapne : l.map f ≠ [] := fun h' => h (List.map_eq_nil_iff.mp h')
  obtain ⟨m, hm⟩ : ∃ m, (l.map f).maximum = some m := by
    rcases hx : (l.map f).maximum with _ | m
    · exact absurd (List.maximum_eq_none.mp hx) hmapne
    · exact ⟨m, rfl⟩
  rcases List.mem_map.mp (List.maximum_mem hm) with ⟨p, hp, rfl⟩
  intro hnil
  have hmem : p ∈ keepMaxBy f l :=
    mem_keepMaxBy.mpr
      ⟨hp, fun q hq => List.le_maximum_of_mem (List.mem_map_of_mem f hq) hm⟩
  rw [hnil] at hmem
  exact absurd hmem (List.not_mem_nil p)

theorem keepMaxBy_eq_filter {α β : Type} [LinearOrder β] (f : α → β) (l : List α) :
    keepMaxBy f l = l.filter (fun p => decide ((l.map f).maximum = (f p : WithBot β))) :=
  rfl

theorem keepMaxBy_of_const {α β : Type} [LinearOrder β] {f : α → β} {l : List α} {c : β}
    (h : ∀ p ∈ l, f p = c) : keepMaxBy f l = l := by
  cases l with
  | nil => rfl
  | cons x xs =>
    have hmax : ((x :: xs).map f).maximum = (c : WithBot β) := by
      apply List.maximum_eq_coe_iff.mpr
      constructor
      · exact (h x (by simp)) ▸ List.mem_map_of_mem f (by simp)
      · rintro b hb
        rcases List.mem_map.mp hb with ⟨q, hq, rfl⟩
        exact le_of_eq (h q hq)
    refine List.filter_eq_self.mpr (fun a ha => ?_)
    simp only [decide_eq_true_eq, h a ha]
    exact hmax

theorem keepMaxBy_singleton {α β : Type} [LinearOrder β] (f : α → β) (a : α) :
    keepMaxBy f [a] = [a] :=
  keepMaxBy_of_const (c := f a) (by simp)

theorem head?_filter_spec {α : Type} {pr : α → Bool} :
    ∀ (l : List α) (a : α), (l.filter pr).head? = some a →
      pr a = true ∧ ∃ n : ℕ, l[n]? = some a ∧
        ∀ j : ℕ, j < n → ∀ b, l[j]? = some b → pr b = false := by
  intro l
  induction l with
  | nil => intro a h; simp at h
  | cons x xs ih =>
    intro a h
    by_cases hx : pr x
    · rw [List.filter_cons_of_pos hx] at h
      obtain rfl : x = a := by simpa using h
      exact ⟨hx, 0, by simp, fun j hj => absurd hj (by omega)⟩
    · rw [List.filter_cons_of_neg hx] at h
      obtain ⟨ha, n, hn, hmin⟩ := ih a h
      refine ⟨ha, n + 1, by simpa using hn, ?_⟩
      intro j hj b hb
      cases j with
      | zero =>
        obtain rfl : x = b := by simpa using hb
        simpa using hx
      | succ j' => exact hmin j' (by omega) b (by simpa using hb)

theorem mem_iff_getElem?_some {α : Type} {l : List α} {a : α} :
    a ∈ l ↔ ∃ j : ℕ, l[j]? = some a := by
  constructor
  · intro h
    rcases List.getElem_of_mem h with ⟨j, hj, rfl⟩
    exact ⟨j, List.getElem?_eq_getElem hj⟩
  · rintro ⟨j, hj⟩
    exact List.getElem?_mem hj

theorem keepMaxBy_sublist {α β : Type} [LinearOrder β] (f : α → β) (l : List α) :
    List.Sublist (keepMaxBy f l) l :=
  List.filter_sublist l

theorem enum_pairwise_fst_lt {α : Type} (l : List α) :
    l.enum.Pairwise (fun a b => a.1 < b.1) := by
  rw [List.pairwise_iff_getElem]
  intro i j hi hj hij
  simp only [List.getElem_enum]
  exact hij

/-! ## Claims -/

/-- **C1**: For every non-empty encoding-result table, the winning row is
selected by keeping the rows whose `d.score` equals the table maximum,
then among those the rows with maximal `optimalBS` string length, then
among those the rows with maximal `subsetSize`, finally taking the first
remaining row in table order; in particular two rows of equal `d.score`
with 5-bit `"10110"` and 7-bit `"1011010"` bitstrings resolve to the
7-bit row regardless of one-count. -/
theorem C1_winner_selection :
    (∀ res : List EncRow, res ≠ [] → ∃ i : ℕ, selectWinnerIdx res = some i) ∧
    (∀ (res : List EncRow) (i : ℕ), selectWinnerIdx res = some i →
      ∃ r, res[i]? = some r ∧
        (∀ r' ∈ res, r'.dscore ≤ r.dscore) ∧
        (∀ r' ∈ res, r'.dscore = r.dscore →
          r'.optimalBS.length ≤ r.optimalBS.length) ∧
        (∀ r' ∈ res, r'.dscore = r.dscore →
          r'.optimalBS.length = r.optimalBS.length →
          r'.subsetSize ≤ r.subsetSize) ∧
        (∀ j : ℕ, j < i → ∀ r', res[j]? = some r' →
          ¬(r'.dscore = r.dscore ∧ r'.optimalBS.length = r.optimalBS.length ∧
            r'.subsetSize = r.subsetSize))) ∧
    (∀ (d : ℚ) (n₁ n₂ : ℕ),
      selectWinnerIdx [⟨d, "10110", n₁⟩, ⟨d, "1011010", n₂⟩] = some 1) := by
  refine ⟨?_, ?_, ?_⟩
  · intro res hres
    have he : res.enum ≠ [] := by simpa using hres
    have h3 : keepMaxBy (fun p : ℕ × EncRow => p.2.subsetSize)
        (keepMaxBy (fun p : ℕ × EncRow => p.2.optimalBS.length)
          (keepMaxBy (fun p : ℕ × EncRow => p.2.dscore) res.enum)) ≠ [] :=
      keepMaxBy_ne_nil (keepMaxBy_ne_nil (keepMaxBy_ne_nil he))
    obtain ⟨x, xs, hx⟩ := List.exists_cons_of_ne_nil h3
    exact ⟨x.1, by simp [selectWinnerIdx, hx]⟩
  · intro res i h
    unfold selectWinnerIdx at h
    rcases Option.map_eq_some'.mp h with ⟨⟨i', r⟩, hh, hfst⟩
    obtain rfl : i' = i := hfst
    have hm3 : (i', r) ∈ keepMaxBy (fun p : ℕ × EncRow => p.2.subsetSize)
        (keepMaxBy (fun p : ℕ × EncRow => p.2.optimalBS.length)
          (keepMaxBy (fun p : ℕ × EncRow => p.2.dscore) res.enum)) :=
      List.mem_of_mem_head? (Option.mem_def.mpr hh)
    obtain ⟨hm2, hb3⟩ := mem_keepMaxBy.mp hm3
    obtain ⟨hm1, hb2⟩ := mem_keepMaxBy.mp hm2
    obtain ⟨hme, hb1⟩ := mem_keepMaxBy.mp hm1
    have hget : res[i']? = some r := List.mk_mem_enum_iff_getElem?.mp hme
    have hmem1of : ∀ (j : ℕ) (r' : EncRow), res[j]? = some r' →
        r'.dscore = r.dscore →
        (j, r') ∈ keepMaxBy (fun p : ℕ × EncRow => p.2.dscore) res.enum := by
      intro j r' hj hds
      exact mem_keepMaxBy.mpr ⟨List.mk_mem_enum_iff_getElem?.mpr hj,
        fun q hq => le_of_le_of_eq (hb1 q hq) hds.symm⟩
    have hmem2of : ∀ (j : ℕ) (r' : EncRow), res[j]? = some r' →
        r'.dscore = r.dscore → r'.optimalBS.length = r.optimalBS.length →
        (j, r') ∈ keepMaxBy (fun p : ℕ × EncRow => p.2.optimalBS.length)
          (keepMaxBy (fun p : ℕ × EncRow => p.2.dscore) res.enum) := by
      intro j r' hj hds hlen
      exact mem_keepMaxBy.mpr ⟨hmem1of j r' hj hds,
        fun q hq => le_of_le_of_eq (hb2 q hq) hlen.symm⟩
    refine ⟨r, hget, ?_, ?_, ?_, ?_⟩
    · intro r' hr'
      rcases mem_iff_getElem?_some.mp hr' with ⟨j, hj⟩
      exact hb1 (j, r') (List.mk_mem_enum_iff_getElem?.mpr hj)
    · intro r' hr' hds
      rcases mem_iff_getElem?_some.mp hr' with ⟨j, hj⟩
      exact hb2 (j, r') (hmem1of j r' hj hds)
    · intro r' hr' hds hlen
      rcases mem_iff_getElem?_some.mp hr' with ⟨j, hj⟩
      exact hb3 (j, r') (hmem2of j r' hj hds hlen)
    · rintro j hj r' hjget ⟨hds, hlen, hsz⟩
      have hmem3 : (j, r') ∈ keepMaxBy (fun p : ℕ × EncRow => p.2.subsetSize)
          (keepMaxBy (fun p : ℕ × EncRow => p.2.optimalBS.length)
            (keepMaxBy (fun p : ℕ × EncRow => p.2.dscore) res.enum)) :=
        mem_keepMaxBy.mpr ⟨hmem2of j r' hjget hds hlen,
          fun q hq => le_of_le_of_eq (hb3 q hq) hsz.symm⟩
      have hpair : (keepMaxBy (fun p : ℕ × EncRow => p.2.subsetSize)
          (keepMaxBy (fun p : ℕ × EncRow => p.2.optimalBS.length)
            (keepMaxBy (fun p : ℕ × EncRow => p.2.dscore) res.enum))).Pairwise
          (fun a b => a.1 < b.1) :=
        List.Pairwise.sublist
          ((keepMaxBy_sublist _ _).trans
            ((keepMaxBy_sublist _ _).trans (keepMaxBy_sublist _ _)))
          (enum_pairwise_fst_lt res)
      rcases hl3 : keepMaxBy (fun p : ℕ × EncRow => p.2.subsetSize)
          (keepMaxBy (fun p : ℕ × EncRow => p.2.optimalBS.length)
            (keepMaxBy (fun p : ℕ × EncRow => p.2.dscore) res.enum)) with _ | ⟨a, t⟩
      · rw [hl3] at hh; simp at hh
      · rw [hl3] at hh
        obtain rfl : a = (i', r) := by simpa using hh
        rw [hl3] at hmem3 hpair
        rcases List.mem_cons.mp hmem3 with heq | hmemt
        · have : j = i' := congrArg Prod.fst heq
          omega
        · have := List.rel_of_pairwise_cons hpair hmemt
          simp only at this
          omega
  · intro d n₁ n₂
    unfold selectWinnerIdx
    have henum : ([⟨d, "10110", n₁⟩, ⟨d, "1011010", n₂⟩] : List EncRow).enum
        = [(0, ⟨d, "10110", n₁⟩), (1, ⟨d, "1011010", n₂⟩)] := rfl
    rw [henum]
    rw [keepMaxBy_of_const (c := d) (by intro p hp; fin_cases hp <;> rfl)]
    rw [show keepMaxBy (fun p : ℕ × EncRow => p.2.optimalBS.length)
        [(0, (⟨d, "10110", n₁⟩ : EncRow)), (1, ⟨d, "1011010", n₂⟩)]
        = [(1, ⟨d, "1011010", n₂⟩)] from rfl]
    rw [keepMaxBy_singleton]
    rfl

/-- Witness for C1 at a concrete table: a three-row table with a unique
`d.score` maximum shared by rows 1 and 2, broken by bitstring length. -/
theorem C1_winner_selection_witness :
    ([⟨1, "1", 1⟩, ⟨2, "10110", 3⟩, ⟨2, "1011010", 4⟩] : List EncRow) ≠ [] ∧
    selectWinnerIdx [⟨1, "1", 1⟩, ⟨2, "10110", 3⟩, ⟨2, "1011010", 4⟩] = some 2 ∧
    ∃ r, ([⟨1, "1", 1⟩, ⟨2, "10110", 3⟩, ⟨2, "1011010", 4⟩] : List EncRow)[2]? = some r ∧
      (∀ r' ∈ ([⟨1, "1", 1⟩, ⟨2, "10110", 3⟩, ⟨2, "1011010", 4⟩] : List EncRow),
        r'.dscore ≤ r.dscore) ∧
      (∀ r' ∈ ([⟨1, "1", 1⟩, ⟨2, "10110", 3⟩, ⟨2, "1011010", 4⟩] : List EncRow),
        r'.dscore = r.dscore → r'.optimalBS.length ≤ r.optimalBS.length) ∧
      (∀ r' ∈ ([⟨1, "1", 1⟩, ⟨2, "10110", 3⟩, ⟨2, "1011010", 4⟩] : List EncRow),
        r'.dscore = r.dscore → r'.optimalBS.length = r.optimalBS.length →
        r'.subsetSize ≤ r.subsetSize) ∧
      (∀ j : ℕ, j < 2 → ∀ r',
        ([⟨1, "1", 1⟩, ⟨2, "10110", 3⟩, ⟨2, "1011010", 4⟩] : List EncRow)[j]? = some r' →
        ¬(r'.dscore = r.dscore ∧ r'.optimalBS.length = r.optimalBS.length ∧
          r'.subsetSize = r.subsetSize)) :=
  ⟨by decide, by decide,
    C1_winner_selection.2.1 [⟨1, "1", 1⟩, ⟨2, "10110", 3⟩, ⟨2, "1011010", 4⟩] 2 (by decide)⟩

/-- Anatomy of a successful run: a `.ok` result determines every
intermediate of `ctdRun` (validation passed, the ranks value, the winning
index and row, the winning bitstring entry, and how the output fields are
assembled from them). -/
theorem ctdRun_ok_spec {Gkeys S : List String} {cache : Option RanksMap}
    {np : ℕ} {rk : Ranker} {sc : Scorer} {exp : Option ExpFrame}
    {nsf : ℚ → ℚ} {inc : Bool} {out : CTDOut}
    (h : ctdRun Gkeys S cache np rk sc exp nsf inc = .ok out) :
    (∀ n ∈ S, Gkeys.contains n = true) ∧
    out.S_perturbed_nodes = S ∧
    out.ranks_out = ranksOf cache np rk (np_log2 Gkeys.length) S ∧
    out.number_of_nodes_in_G = Gkeys.length ∧
    ∃ (pt_id : Option String) (i : ℕ) (entry : List (String × ℕ)),
      pt_id_of (data_mx_pvals nsf exp) = .ok pt_id ∧
      selectWinnerIdx (sc (get_pt_bs_by_k S (ranksOf cache np rk (np_log2 Gkeys.length) S))
        (data_mx_pvals nsf exp).T pt_id) = some i ∧
      (sc (get_pt_bs_by_k S (ranksOf cache np rk (np_log2 Gkeys.length) S))
        (data_mx_pvals nsf exp).T pt_id)[i]? = some out.winner ∧
      (get_pt_bs_by_k S (ranksOf cache np rk (np_log2 Gkeys.length) S))[i]? = some entry ∧
      out.F_most_connected_nodes = Fs_of entry inc := by
  unfold ctdRun at h
  split at h
  · exact absurd h (by simp)
  · next hfind =>
    have hvalid : ∀ n ∈ S, Gkeys.contains n = true := by
      intro n hn
      have := List.find?_eq_none.mp hfind n hn
      simpa using this
    dsimp only at h
    split at h
    · next e he => exact absurd h (by simp)
    · next pt_id hpt =>
      split at h
      · exact absurd h (by simp)
      · next i hsel =>
        split at h
        · next F_info entry hres hbs =>
          obtain rfl : _ = out := (Except.ok.injEq _ _).mp h
          exact ⟨hvalid, rfl, rfl, rfl, pt_id, i, entry, hpt, hsel, hres, hbs, rfl⟩
        · exact absurd h (by simp)

/-- A successful selection index is a valid position of the table. -/
theorem selectWinnerIdx_getElem? {res : List EncRow} {i : ℕ}
    (h : selectWinnerIdx res = some i) : ∃ r, res[i]? = some r := by
  unfold selectWinnerIdx at h
  rcases Option.map_eq_some'.mp h with ⟨⟨i', r⟩, hh, hfst⟩
  obtain rfl : i' = i := hfst
  have hm3 := List.mem_of_mem_head? (Option.mem_def.mpr hh)
  have hm2 := (mem_keepMaxBy.mp hm3).1
  have hm1 := (mem_keepMaxBy.mp hm2).1
  exact ⟨r, List.mk_mem_enum_iff_getElem?.mp (mem_keepMaxBy.mp hm1).1⟩

/-- `pt_id` extraction can only fail with the uncaught `IndexError` on an
empty column list. -/
theorem pt_id_of_error {m : PMatrix} {e : CTDErr} (h : pt_id_of m = .error e) :
    e = .columnsIndexError := by
  unfold pt_id_of at h
  split at h
  · exact absurd h (by simp)
  · split at h
    · exact ((Except.error.injEq _ _).mp h).symm
    · exact absurd h (by simp)

/-- The run exits with the seed-validation error for `n` exactly when `n`
is the first seed the `for`-loop of lines 117-120 finds missing from `G`;
no later stage can produce that error. -/
theorem ctdRun_seedErr_iff {Gkeys S : List String} {cache : Option RanksMap}
    {np : ℕ} {rk : Ranker} {sc : Scorer} {exp : Option ExpFrame}
    {nsf : ℚ → ℚ} {inc : Bool} {n : String} :
    ctdRun Gkeys S cache np rk sc exp nsf inc = .error (.seedNotInGraph n) ↔
    S.find? (fun m => !(Gkeys.contains m)) = some n := by
  unfold ctdRun
  split
  · next m hm =>
    rw [hm]
    constructor
    · intro h
      have : CTDErr.seedNotInGraph m = .seedNotInGraph n := (Except.error.injEq _ _).mp h
      rw [(CTDErr.seedNotInGraph.injEq _ _).mp this]
    · intro h
      rw [(Option.some.injEq _ _).mp h]
  · next hnone =>
    rw [hnone]
    dsimp only
    constructor
    · intro h
      exfalso
      split at h
      · next e he =>
        have h1 := (Except.error.injEq _ _).mp h
        rw [pt_id_of_error he] at h1
        exact absurd h1 (by simp)
      · split at h
        · exact absurd ((Except.error.injEq _ _).mp h) (by simp)
        · split at h
          · exact absurd h (by simp)
          · exact absurd ((Except.error.injEq _ _).mp h) (by simp)
    · intro h
      exact absurd h (by simp)

/-- The ranks value does not depend on the worker count. -/
theorem ranksOf_indep (cache : Option RanksMap) (np : ℕ) (rk : Ranker)
    (nm : NumMisses) (S : List String) :
    ranksOf cache 1 rk nm S = ranksOf cache np rk nm S := by
  cases cache with
  | some c => rfl
  | none =>
    show seqRanks rk nm S = if np = 1 then seqRanks rk nm S else poolRanks rk nm S
    by_cases h : np = 1
    · rw [if_pos h]
    · rw [if_neg h, seqRanks, poolRanks, List.foldl_map]
      rfl

/-- **C3**: a seed identifier absent from `G`'s key set makes the run
abort with the fatal validation error, uniformly in the ranker and the
scorer (so before any ranking work, with no output); when every seed is
present, validation passes and the run never produces that error. -/
theorem C3_seed_validation :
    (∀ (Gkeys S : List String) (cache : Option RanksMap) (np : ℕ)
      (exp : Option ExpFrame) (nsf : ℚ → ℚ) (inc : Bool),
      (∃ s ∈ S, Gkeys.contains s = false) →
      ∃ n ∈ S, Gkeys.contains n = false ∧
        ∀ (rk : Ranker) (sc : Scorer),
          ctdRun Gkeys S cache np rk sc exp nsf inc = .error (.seedNotInGraph n)) ∧
    (∀ (Gkeys S : List String) (cache : Option RanksMap) (np : ℕ)
      (rk : Ranker) (sc : Scorer) (exp : Option ExpFrame) (nsf : ℚ → ℚ) (inc : Bool),
      (∀ s ∈ S, Gkeys.contains s = true) →
      ∀ n, ctdRun Gkeys S cache np rk sc exp nsf inc ≠ .error (.seedNotInGraph n)) := by
  constructor
  · intro Gkeys S cache np exp nsf inc hex
    rcases hf : S.find? (fun m => !(Gkeys.contains m)) with _ | n
    · exfalso
      rcases hex with ⟨s, hs, hcon⟩
      have := List.find?_eq_none.mp hf s hs
      rw [hcon] at this
      exact this rfl
    · refine ⟨n, List.mem_of_find?_eq_some hf, ?_, fun rk sc => ctdRun_seedErr_iff.mpr hf⟩
      have := List.find?_some hf
      simpa using this
  · intro Gkeys S cache np rk sc exp nsf inc hall n hcon
    have hf := ctdRun_seedErr_iff.mp hcon
    have hn := List.find?_some hf
    rw [hall n (List.mem_of_find?_eq_some hf)] at hn
    simp at hn

/-- Witness for C3: on the two-node graph `{A, B}`, the seed set
`{A, X}` aborts with the validation error for `X`, while the seed set
`{A, B}` never produces a validation error. -/
theorem C3_seed_validation_witness :
    (∃ n ∈ ["A", "X"], (["A", "B"] : List String).contains n = false ∧
      ∀ (rk : Ranker) (sc : Scorer),
        ctdRun ["A", "B"] ["A", "X"] none 1 rk sc none id false
          = .error (.seedNotInGraph n)) ∧
    (∀ n, ctdRun ["A", "B"] ["A", "B"] (some [("A", [("A", 1)])]) 1
      (fun _ _ => []) (fun _ _ _ => []) none id false ≠ .error (.seedNotInGraph n)) :=
  ⟨C3_seed_validation.1 ["A", "B"] ["A", "X"] none 1 none id false
      ⟨"X", by decide, by decide⟩,
   C3_seed_validation.2 ["A", "B"] ["A", "B"] (some [("A", [("A", 1)])]) 1
      (fun _ _ => []) (fun _ _ _ => []) none id false (by decide)⟩

/-- **C5**: with one worker process the sequential loop builds the same
ranks mapping as the pool path builds for any worker count, and the whole
run's result is identical. -/
theorem C5_seq_eq_pool :
    (∀ (rk : Ranker) (nm : NumMisses) (S : List String),
      seqRanks rk nm S = poolRanks rk nm S) ∧
    (∀ (Gkeys S : List String) (cache : Option RanksMap) (np : ℕ)
      (rk : Ranker) (sc : Scorer) (exp : Option ExpFrame) (nsf : ℚ → ℚ) (inc : Bool),
      ctdRun Gkeys S cache 1 rk sc exp nsf inc
        = ctdRun Gkeys S cache np rk sc exp nsf inc) := by
  constructor
  · intro rk nm S
    rw [seqRanks, poolRanks, List.foldl_map]
    rfl
  · intro Gkeys S cache np rk sc exp nsf inc
    unfold ctdRun
    rw [ranksOf_indep cache np rk (np_log2 Gkeys.length) S]

/-- **C9**: a supplied rank cache is written back unchanged as the ranks
output of every successful run, and with a cache the whole run is
independent of the ranker and worker count (ranking is skipped). -/
theorem C9_cache_roundtrip :
    (∀ (Gkeys S : List String) (c : RanksMap) (np : ℕ) (rk : Ranker)
      (sc : Scorer) (exp : Option ExpFrame) (nsf : ℚ → ℚ) (inc : Bool) (out : CTDOut),
      ctdRun Gkeys S (some c) np rk sc exp nsf inc = .ok out → out.ranks_out = c) ∧
    (∀ (Gkeys S : List String) (c : RanksMap) (np np' : ℕ) (rk rk' : Ranker)
      (sc : Scorer) (exp : Option ExpFrame) (nsf : ℚ → ℚ) (inc : Bool),
      ctdRun Gkeys S (some c) np rk sc exp nsf inc
        = ctdRun Gkeys S (some c) np' rk' sc exp nsf inc) := by
  constructor
  · intro Gkeys S c np rk sc exp nsf inc out h
    exact (ctdRun_ok_spec h).2.2.1
  · intro Gkeys S c np np' rk rk' sc exp nsf inc
    have hc : ∀ (np₀ : ℕ) (rk₀ : Ranker),
        ranksOf (some c) np₀ rk₀ (np_log2 Gkeys.length) S = c := fun _ _ => rfl
    unfold ctdRun
    rw [hc np rk, hc np' rk']

/-- **C2**: the reported `p_value` is exactly `2^(−d.score)` of the
winning row, with no clamping: in `(0, 1]` whenever `d.score ≥ 0`, and
strictly above `1` (reported as-is) whenever `d.score < 0`. -/
theorem C2_p_value :
    (∀ o : CTDOut, o.p_value = (2 : ℝ) ^ (-(o.winner.dscore : ℝ))) ∧
    (∀ o : CTDOut, 0 ≤ o.winner.dscore → 0 < o.p_value ∧ o.p_value ≤ 1) ∧
    (∀ o : CTDOut, o.winner.dscore < 0 → 1 < o.p_value) := by
  refine ⟨fun o => rfl, fun o hd => ⟨?_, ?_⟩, fun o hd => ?_⟩
  · exact Real.rpow_pos_of_pos (by norm_num) _
  · apply Real.rpow_le_one_of_one_le_of_nonpos (by norm_num)
    simpa using (Rat.cast_nonneg (K := ℝ)).mpr hd
  · apply (Real.one_lt_rpow_iff_of_pos (by norm_num)).mpr
    left
    refine ⟨by norm_num, ?_⟩
    simpa using (Rat.cast_lt_zero (K := ℝ)).mpr hd

/-- Witness for C2 at two concrete winners: `d.score = 3` gives a p-value
in `(0, 1]`, `d.score = -2` gives a p-value above `1`. -/
theorem C2_p_value_witness :
    (0 ≤ (⟨[], [], ⟨3, "101", 3⟩, [], 0⟩ : CTDOut).winner.dscore ∧
      0 < (⟨[], [], ⟨3, "101", 3⟩, [], 0⟩ : CTDOut).p_value ∧
      (⟨[], [], ⟨3, "101", 3⟩, [], 0⟩ : CTDOut).p_value ≤ 1) ∧
    ((⟨[], [], ⟨-2, "101", 3⟩, [], 0⟩ : CTDOut).winner.dscore < 0 ∧
      1 < (⟨[], [], ⟨-2, "101", 3⟩, [], 0⟩ : CTDOut).p_value) :=
  ⟨⟨by norm_num, C2_p_value.2.1 ⟨[], [], ⟨3, "101", 3⟩, [], 0⟩ (by norm_num)⟩,
   ⟨by norm_num, C2_p_value.2.2 ⟨[], [], ⟨-2, "101", 3⟩, [], 0⟩ (by norm_num)⟩⟩

/-- Fixture ranker for witnesses: never used by cached runs. -/
def witRk : Ranker := fun _ _ => []

/-- Fixture scorer for witnesses: one row per bitstring entry, constant
`d.score` 0, bitstring `"1"`, `subsetSize` = entry length. -/
def witSc : Scorer := fun bs _ _ => bs.map (fun e => ⟨0, "1", e.length⟩)

/-- Fixture rank cache with a single one-entry rank list. -/
def witCache : RanksMap := [("A", [("A", 1)])]

/-- Fixture rank cache with a two-entry rank list (bits 1 and 0). -/
def witCache2 : RanksMap := [("A", [("A", 1), ("B", 0)])]

/-- **C8**: the reported `kmcm_probability` equals `2^(−L)` where `L` is
the character length of the winning row's `optimalBS` string; on every
successful run the row in question is the one picked by the tie-break
selection. -/
theorem C8_kmcm_probability :
    (∀ o : CTDOut, o.kmcm = (2 : ℚ) ^ (-(o.optimal_bitstring.length : ℤ)) ∧
      o.kmcm * 2 ^ o.optimal_bitstring.length = 1) ∧
    (∀ (Gkeys S : List String) (cache : Option RanksMap) (np : ℕ) (rk : Ranker)
      (sc : Scorer) (exp : Option ExpFrame) (nsf : ℚ → ℚ) (inc : Bool) (out : CTDOut),
      ctdRun Gkeys S cache np rk sc exp nsf inc = .ok out →
      ∃ (pt_id : Option String) (i : ℕ),
        selectWinnerIdx (sc (get_pt_bs_by_k S out.ranks_out)
          (data_mx_pvals nsf exp).T pt_id) = some i ∧
        (sc (get_pt_bs_by_k S out.ranks_out) (data_mx_pvals nsf exp).T pt_id)[i]?
          = some out.winner ∧
        out.kmcm = (2 : ℚ) ^ (-(out.winner.optimalBS.length : ℤ))) := by
  constructor
  · intro o
    refine ⟨rfl, ?_⟩
    rw [CTDOut.kmcm, kmcm_probability, CTDOut.optimal_bitstring, zpow_neg, zpow_natCast]
    exact inv_mul_cancel₀ (by positivity)
  · intro Gkeys S cache np rk sc exp nsf inc out h
    obtain ⟨_, _, hranks, _, pt_id, i, entry, hpt, hsel, hres, hbs, hF⟩ := ctdRun_ok_spec h
    refine ⟨pt_id, i, ?_, ?_, rfl⟩
    · rw [hranks]; exact hsel
    · rw [hranks]; exact hres

/-- Witness for C8: a concrete successful cached run; its winner's
bitstring is `"1"` and the reported kmcm probability is `2⁻¹`. -/
theorem C8_kmcm_probability_witness :
    ctdRun ["A"] ["A"] (some witCache) 1 witRk witSc none id false
      = .ok ⟨["A"], ["A"], ⟨0, "1", 1⟩, witCache, 1⟩ ∧
    ∃ (pt_id : Option String) (i : ℕ),
      selectWinnerIdx (witSc (get_pt_bs_by_k ["A"]
          (⟨["A"], ["A"], ⟨0, "1", 1⟩, witCache, 1⟩ : CTDOut).ranks_out)
        (data_mx_pvals id none).T pt_id) = some i ∧
      (witSc (get_pt_bs_by_k ["A"]
          (⟨["A"], ["A"], ⟨0, "1", 1⟩, witCache, 1⟩ : CTDOut).ranks_out)
        (data_mx_pvals id none).T pt_id)[i]?
        = some (⟨["A"], ["A"], ⟨0, "1", 1⟩, witCache, 1⟩ : CTDOut).winner ∧
      (⟨["A"], ["A"], ⟨0, "1", 1⟩, witCache, 1⟩ : CTDOut).kmcm
        = (2 : ℚ) ^ (-((⟨["A"], ["A"], ⟨0, "1", 1⟩, witCache, 1⟩ : CTDOut).winner.optimalBS.length : ℤ)) :=
  ⟨rfl, C8_kmcm_probability.2 ["A"] ["A"] (some witCache) 1 witRk witSc none id false
    ⟨["A"], ["A"], ⟨0, "1", 1⟩, witCache, 1⟩ rfl⟩

/-- **C4**: the discovered subset consists exactly of the entry's nodes
with membership bit 1, plus (when the include-nodes-not-in-S option is
set) the bit-0 entries; on every successful run
`F_most_connected_nodes` is built this way from the winning bitstring
entry. -/
theorem C4_discovered_subset :
    (∀ (entry : List (String × ℕ)) (inc : Bool) (x : String),
      x ∈ Fs_of entry inc ↔ ((x, 1) ∈ entry ∨ (inc = true ∧ (x, 0) ∈ entry))) ∧
    (∀ (Gkeys S : List String) (cache : Option RanksMap) (np : ℕ) (rk : Ranker)
      (sc : Scorer) (exp : Option ExpFrame) (nsf : ℚ → ℚ) (inc : Bool) (out : CTDOut),
      ctdRun Gkeys S cache np rk sc exp nsf inc = .ok out →
      ∃ (i : ℕ) (entry : List (String × ℕ)),
        (get_pt_bs_by_k S out.ranks_out)[i]? = some entry ∧
        out.F_most_connected_nodes = Fs_of entry inc) := by
  constructor
  · intro entry inc x
    constructor
    · intro hx
      rcases List.mem_map.mp hx with ⟨⟨a, b⟩, hab, rfl⟩
      rcases List.mem_filter.mp hab with ⟨hmem, hkeep⟩
      cases inc with
      | false =>
        have hb : b = 1 := by simpa [keep_nodes] using hkeep
        exact Or.inl (hb ▸ hmem)
      | true =>
        have hb : b = 0 ∨ b = 1 := by simpa [keep_nodes] using hkeep
        rcases hb with rfl | rfl
        · exact Or.inr ⟨rfl, hmem⟩
        · exact Or.inl hmem
    · intro hx
      rcases hx with h1 | ⟨hinc, h0⟩
      · refine List.mem_map.mpr ⟨(x, 1), List.mem_filter.mpr ⟨h1, ?_⟩, rfl⟩
        cases inc <;> simp [keep_nodes]
      · subst hinc
        exact List.mem_map.mpr ⟨(x, 0), List.mem_filter.mpr ⟨h0, by simp [keep_nodes]⟩, rfl⟩
  · intro Gkeys S cache np rk sc exp nsf inc out h
    obtain ⟨_, _, hranks, _, pt_id, i, entry, hpt, hsel, hres, hbs, hF⟩ := ctdRun_ok_spec h
    refine ⟨i, entry, ?_, hF⟩
    rw [hranks]; exact hbs

/-- Witness for C4: a cached run with rank list `[(A,1), (B,0)]` and the
include-not-in-S option set reports `F = [A, B]`, built from the winning
two-entry bitstring. -/
theorem C4_discovered_subset_witness :
    ctdRun ["A", "B"] ["A"] (some witCache2) 1 witRk witSc none id true
      = .ok ⟨["A"], ["A", "B"], ⟨0, "1", 2⟩, witCache2, 2⟩ ∧
    ∃ (i : ℕ) (entry : List (String × ℕ)),
      (get_pt_bs_by_k ["A"]
        (⟨["A"], ["A", "B"], ⟨0, "1", 2⟩, witCache2, 2⟩ : CTDOut).ranks_out)[i]?
        = some entry ∧
      (⟨["A"], ["A", "B"], ⟨0, "1", 2⟩, witCache2, 2⟩ : CTDOut).F_most_connected_nodes
        = Fs_of entry true :=
  ⟨rfl, C4_discovered_subset.2 ["A", "B"] ["A"] (some witCache2) 1 witRk witSc none id true
    ⟨["A"], ["A", "B"], ⟨0, "1", 2⟩, witCache2, 2⟩ rfl⟩

/-- **C10**: without an experimental dataset the p-value matrix defaults
to a 1×1 all-zero matrix (whose transpose, the value actually passed to
the scorer, is the same matrix), the patient identifier resolves to
`None` through the caught `AttributeError`, and scoring still runs to
completion: a run with valid seeds and a winnable table succeeds. -/
theorem C10_no_experimental :
    (∀ nsf : ℚ → ℚ, data_mx_pvals nsf none = .zeros 1 1) ∧
    (PMatrix.zeros 1 1).T = .zeros 1 1 ∧
    pt_id_of (PMatrix.zeros 1 1) = .ok none ∧
    (∀ (Gkeys S : List String) (cache : Option RanksMap) (np : ℕ) (rk : Ranker)
      (sc : Scorer) (nsf : ℚ → ℚ) (inc : Bool) (i : ℕ) (entry : List (String × ℕ)),
      (∀ s ∈ S, Gkeys.contains s = true) →
      selectWinnerIdx (sc (get_pt_bs_by_k S (ranksOf cache np rk (np_log2 Gkeys.length) S))
        (.zeros 1 1) none) = some i →
      (get_pt_bs_by_k S (ranksOf cache np rk (np_log2 Gkeys.length) S))[i]? = some entry →
      ∃ out, ctdRun Gkeys S cache np rk sc none nsf inc = .ok out) := by
  refine ⟨fun _ => rfl, rfl, rfl, ?_⟩
  intro Gkeys S cache np rk sc nsf inc i entry hval hsel hentry
  have hfind : S.find? (fun m => !(Gkeys.contains m)) = none :=
    List.find?_eq_none.mpr (fun s hs => by rw [hval s hs]; simp)
  obtain ⟨w, hw⟩ := selectWinnerIdx_getElem? hsel
  refine ⟨⟨S, Fs_of entry inc, w, ranksOf cache np rk (np_log2 Gkeys.length) S,
    Gkeys.length⟩, ?_⟩
  unfold ctdRun
  rw [hfind]
  dsimp only [data_mx_pvals, PMatrix.T, pt_id_of]
  rw [hsel]
  dsimp only
  rw [hw, hentry]

/-- Witness for C10: the concrete cached run of an experiment-free
configuration succeeds. -/
theorem C10_no_experimental_witness :
    ∃ out, ctdRun ["A"] ["A"] (some witCache) 1 witRk witSc none id false = .ok out :=
  C10_no_experimental.2.2.2 ["A"] ["A"] (some witCache) 1 witRk witSc id false
    0 [("A", 1)] (by decide) rfl rfl

/-- Witness for C9: a cached run over the pool path (`num_processes = 2`)
writes its cache back unchanged. -/
theorem C9_cache_roundtrip_witness :
    ctdRun ["A"] ["A"] (some witCache) 2 witRk witSc none id false
      = .ok ⟨["A"], ["A"], ⟨0, "1", 1⟩, witCache, 1⟩ ∧
    (⟨["A"], ["A"], ⟨0, "1", 1⟩, witCache, 1⟩ : CTDOut).ranks_out = witCache :=
  ⟨rfl, C9_cache_roundtrip.1 ["A"] ["A"] witCache 2 witRk witSc none id false
    ⟨["A"], ["A"], ⟨0, "1", 1⟩, witCache, 1⟩ rfl⟩

/-! ## Seed-selection lemmas -/

theorem insertDescBy_perm (key : String → ℚ) (x : String) (l : List String) :
    (insertDescBy key x l).Perm (x :: l) := by
  induction l with
  | nil => exact List.Perm.refl _
  | cons y ys ih =>
    unfold insertDescBy
    by_cases h : key y ≤ key x
    · rw [if_pos h]
    · rw [if_neg h]
      exact (List.Perm.cons y ih).trans (List.Perm.swap x y ys)

theorem sortDescBy_perm (key : String → ℚ) (l : List String) :
    (sortDescBy key l).Perm l := by
  induction l with
  | nil => exact List.Perm.refl _
  | cons x xs ih => exact (insertDescBy_perm key x _).trans (List.Perm.cons x ih)

theorem insertDescBy_sorted (key : String → ℚ) (x : String) :
    ∀ l : List String, l.Pairwise (fun a b => key b ≤ key a) →
      (insertDescBy key x l).Pairwise (fun a b => key b ≤ key a) := by
  intro l
  induction l with
  | nil => intro _; exact List.pairwise_singleton _ x
  | cons y ys ih =>
    intro hp
    unfold insertDescBy
    by_cases h : key y ≤ key x
    · rw [if_pos h]
      refine List.Pairwise.cons ?_ hp
      intro b hb
      rcases List.mem_cons.mp hb with rfl | hb'
      · exact h
      · exact le_trans (List.rel_of_pairwise_cons hp hb') h
    · rw [if_neg h]
      refine List.Pairwise.cons ?_ (ih hp.of_cons)
      intro b hb
      rcases List.mem_cons.mp ((insertDescBy_perm key x ys).mem_iff.mp hb) with rfl | hbys
      · exact le_of_lt (lt_of_not_le h)
      · exact List.rel_of_pairwise_cons hp hbys

theorem sortDescBy_sorted (key : String → ℚ) (l : List String) :
    (sortDescBy key l).Pairwise (fun a b => key b ≤ key a) := by
  induction l with
  | nil => exact List.Pairwise.nil
  | cons x xs ih => exact insertDescBy_sorted key x _ ih

theorem mem_counterKeys_go :
    ∀ (l acc : List String) (x : String),
      (x ∈ l.foldl (fun acc y => if y ∈ acc then acc else acc ++ [y]) acc) ↔
        x ∈ acc ∨ x ∈ l := by
  intro l
  induction l with
  | nil => intro acc x; simp
  | cons y ys ih =>
    intro acc x
    rw [List.foldl_cons, ih]
    by_cases h : y ∈ acc
    · rw [if_pos h]
      constructor
      · rintro (h1 | h2)
        · exact Or.inl h1
        · exact Or.inr (List.mem_cons_of_mem y h2)
      · rintro (h1 | h2)
        · exact Or.inl h1
        · rcases List.mem_cons.mp h2 with rfl | h3
          · exact Or.inl h
          · exact Or.inr h3
    · rw [if_neg h]
      constructor
      · rintro (h1 | h2)
        · rcases List.mem_append.mp h1 with h3 | h4
          · exact Or.inl h3
          · exact Or.inr (List.mem_cons.mpr (Or.inl (List.mem_singleton.mp h4)))
        · exact Or.inr (List.mem_cons_of_mem y h2)
      · rintro (h1 | h2)
        · exact Or.inl (List.mem_append.mpr (Or.inl h1))
        · rcases List.mem_cons.mp h2 with rfl | h3
          · exact Or.inl (List.mem_append.mpr (Or.inr (by simp)))
          · exact Or.inr h3

theorem nodup_counterKeys_go :
    ∀ (l acc : List String), acc.Nodup →
      (l.foldl (fun acc y => if y ∈ acc then acc else acc ++ [y]) acc).Nodup := by
  intro l
  induction l with
  | nil => intro acc h; simpa using h
  | cons y ys ih =>
    intro acc h
    rw [List.foldl_cons]
    apply ih
    by_cases hy : y ∈ acc
    · rw [if_pos hy]; exact h
    · rw [if_neg hy]
      refine List.Nodup.append h (List.nodup_singleton y) ?_
      intro a ha hb
      rw [List.mem_singleton] at hb
      exact hy (hb ▸ ha)

theorem counterKeys_nodup (l : List String) : (counterKeys l).Nodup :=
  nodup_counterKeys_go l [] List.nodup_nil

theorem mem_counterKeys (l : List String) (x : String) :
    x ∈ counterKeys l ↔ x ∈ l := by
  rw [counterKeys, mem_counterKeys_go]
  simp

/-- **C6 counterexample**: the literal seed spec `"a, a"` (no file of
that name) yields the list `["a", "a"]`, which contains a duplicate —
the returned collection is not duplicate-free in the literal-list mode. -/
theorem C6_counterexample :
    selectSeeds "a, a" (fun _ => none) ⟨[], [], fun _ _ => 0⟩ 15 (1 / 2) = ["a", "a"] ∧
    ¬ (selectSeeds "a, a" (fun _ => none) ⟨[], [], fun _ _ => 0⟩ 15 (1 / 2)).Nodup := by
  constructor
  · decide
  · decide

/-- **C6 (amended)**: the three seed modes resolve in priority order with
the stated semantics — mode 1 (empty spec) keeps exactly the nodes whose
occurrence count over the per-patient descending-sorted top-`kmx` lists
reaches `perc` times the patient count, and is duplicate-free; the table
mode returns the last column as listed and the literal mode returns the
comma-split whitespace-stripped fields as listed (both possibly with
duplicates). -/
theorem C6_seed_modes :
    (∀ (fs : SModuleFS) (df : ExpFrame) (kmx : ℕ) (perc : ℚ),
      selectSeeds "" fs df kmx perc = mode1Seeds df kmx perc ∧
      (mode1Seeds df kmx perc).Nodup ∧
      (∀ x, x ∈ mode1Seeds df kmx perc ↔ x ∈ S_set_of df kmx ∧
        (df.patients.length : ℚ) * perc ≤ ((S_set_of df kmx).count x : ℚ))) ∧
    (∀ (key : String → ℚ) (l : List String),
      (sortDescBy key l).Perm l ∧
      (sortDescBy key l).Pairwise (fun a b => key b ≤ key a)) ∧
    (∀ (s : String) (fs : SModuleFS) (table : List (List String)) (df : ExpFrame)
      (kmx : ℕ) (perc : ℚ), s ≠ "" → fs s = some table →
      selectSeeds s fs df kmx perc = table.map (fun row => row.getLastD "")) ∧
    (∀ (s : String) (fs : SModuleFS) (df : ExpFrame) (kmx : ℕ) (perc : ℚ),
      s ≠ "" → fs s = none →
      selectSeeds s fs df kmx perc
        = (pySplitComma s.data).map (fun w => String.mk (pyStrip w))) := by
  refine ⟨?_, ?_, ?_, ?_⟩
  · intro fs df kmx perc
    refine ⟨by rw [selectSeeds, if_pos rfl], List.Nodup.filter _ (counterKeys_nodup _), ?_⟩
    intro x
    simp only [mode1Seeds, List.mem_filter, mem_counterKeys, decide_eq_true_eq]
  · intro key l
    exact ⟨sortDescBy_perm key l, sortDescBy_sorted key l⟩
  · intro s fs table df kmx perc hs hfs
    rw [selectSeeds, if_neg hs, hfs]
  · intro s fs df kmx perc hs hfs
    rw [selectSeeds, if_neg hs, hfs]

/-- Witness for C6: the table mode on a two-row table returns the last
column `["A", "B"]`, and the literal mode on `"a, b"` returns the split
and stripped fields `["a", "b"]`. -/
theorem C6_seed_modes_witness :
    selectSeeds "s.csv" (fun _ => some [["1", "A"], ["2", "B"]])
      ⟨[], [], fun _ _ => 0⟩ 15 (1 / 2)
      = ([["1", "A"], ["2", "B"]] : List (List String)).map (fun row => row.getLastD "") ∧
    selectSeeds "a, b" (fun _ => none) ⟨[], [], fun _ _ => 0⟩ 15 (1 / 2)
      = (pySplitComma ("a, b" : String).data).map (fun w => String.mk (pyStrip w)) :=
  ⟨C6_seed_modes.2.2.1 "s.csv" (fun _ => some [["1", "A"], ["2", "B"]])
      [["1", "A"], ["2", "B"]] ⟨[], [], fun _ _ => 0⟩ 15 (1 / 2) (by decide) rfl,
   C6_seed_modes.2.2.2 "a, b" (fun _ => none) ⟨[], [], fun _ _ => 0⟩ 15 (1 / 2)
      (by decide) rfl⟩

/-- **C7 counterexample**: with an empty graph and an (equally empty)
seed set, the run does not fail through any explicit empty-graph check
before computation — it proceeds through ranking, bitstring building and
scoring and only dies at winner selection with the `IndexError` of line
185 — and the miss budget `np.log2(0)` is unguarded: it evaluates
silently to `-inf` (`⊥`, not a real number). -/
theorem C7_counterexample :
    np_log2 0 = .negInf ∧
    NumMisses.toEReal (np_log2 0) = (⊥ : EReal) ∧
    ctdRun [] [] none 1 (fun _ _ => []) (fun _ _ _ => []) none id false
      = .error .selectionIndexError :=
  ⟨rfl, rfl, rfl⟩

/-- **C7 (amended)**: there is no explicit empty-graph guard and no guard
on `np.log2`: with an empty graph and a non-empty seed set the run aborts
only through seed validation (no seed can be contained in the empty key
set); `np.log2(0)` silently evaluates to `-inf` (never a real number)
while `np.log2(n)` for positive `n` is the real base-2 logarithm; and
with an empty seed set the empty graph passes validation without any
pre-computation failure. -/
theorem C7_empty_graph :
    (∀ (S : List String) (cache : Option RanksMap) (np : ℕ) (rk : Ranker) (sc : Scorer)
      (exp : Option ExpFrame) (nsf : ℚ → ℚ) (inc : Bool), S ≠ [] →
      ∃ n ∈ S, ctdRun [] S cache np rk sc exp nsf inc = .error (.seedNotInGraph n)) ∧
    (np_log2 0 = .negInf ∧ ∀ r : ℝ, NumMisses.toEReal (np_log2 0) ≠ (r : EReal)) ∧
    (∀ n : ℕ, n ≠ 0 → NumMisses.toEReal (np_log2 n) = ((Real.logb 2 n : ℝ) : EReal)) ∧
    (∀ (cache : Option RanksMap) (np : ℕ) (rk : Ranker) (sc : Scorer)
      (exp : Option ExpFrame) (nsf : ℚ → ℚ) (inc : Bool) (n : String),
      ctdRun [] [] cache np rk sc exp nsf inc ≠ .error (.seedNotInGraph n)) := by
  refine ⟨?_, ⟨rfl, ?_⟩, ?_, ?_⟩
  · intro S cache np rk sc exp nsf inc hS
    cases S with
    | nil => exact absurd rfl hS
    | cons s rest =>
      exact ⟨s, List.mem_cons_self s rest, ctdRun_seedErr_iff.mpr rfl⟩
  · intro r
    rw [show NumMisses.toEReal (np_log2 0) = (⊥ : EReal) from rfl]
    exact (EReal.coe_ne_bot r).symm
  · intro n hn
    rw [np_log2, if_neg hn]
    rfl
  · intro cache np rk sc exp nsf inc n h
    have := ctdRun_seedErr_iff.mp h
    exact absurd this (by simp)

/-- Witness for C7: the empty graph with seed set `["x"]` aborts at
validation, and `np.log2` of the positive count `2` is the real
`logb 2 2`. -/
theorem C7_empty_graph_witness :
    (∃ n ∈ ["x"], ctdRun [] ["x"] none 1 witRk witSc none id false
      = .error (.seedNotInGraph n)) ∧
    NumMisses.toEReal (np_log2 2) = ((Real.logb 2 2 : ℝ) : EReal) :=
  ⟨C7_empty_graph.1 ["x"] none 1 witRk witSc none id false (by decide),
   C7_empty_graph.2.2.1 2 (by decide)⟩

end CTD
